import Mathlib

/-!
Verification of the leaderboard data pipeline of `src/app.py`.

The pandas `DataFrame` is embedded as a header (list of column labels) plus a
list of rows, each row a list of cells.  Numeric cells are modelled as integers
(`Int`); the pipeline's logic (totals, dense ranking, ordering) never depends
on fractional values.  Fallible library calls that the script wraps in
`try/except` are modelled with `Except`.
-/

namespace FundRaiser

/-- A spreadsheet cell: a string, a number (modelled as an integer), or a
blank / NaN cell as produced by `pandas.read_csv` for empty fields. -/
inductive Cell where
  | str (s : String)
  | num (n : Int)
  | blank
deriving DecidableEq

/-- Column-labelled table of rows, embedding `pandas.DataFrame`.  Duplicate
labels are representable, as in pandas. -/
structure DataFrame where
  header : List String
  rows : List (List Cell)
deriving DecidableEq

/-- Row length agrees with the header everywhere (pandas tables are
rectangular by construction). -/
def Wf (df : DataFrame) : Prop := ∀ r ∈ df.rows, r.length = df.header.length

instance (df : DataFrame) : Decidable (Wf df) := by unfold Wf; infer_instance

/-- Cell at position `i` of a row, `Cell.blank` when out of range. -/
def cellAt (r : List Cell) (i : Nat) : Cell := r.getD i Cell.blank

/-- Index of the first column with the given label, `header.length` when the
label is absent.  With a duplicate-free header this is pandas label lookup. -/
def idxOf (c : String) : List String → Nat
  | [] => 0
  | h :: t => if h = c then 0 else idxOf c t + 1

/-- Position of column `c` in the table. -/
def colIdx (df : DataFrame) (c : String) : Nat := idxOf c df.header

/-- Values of column `c`, top to bottom; `[]` when the label is absent
(pandas raises a `KeyError` there, which the theorems exclude). -/
def getColCells (df : DataFrame) (c : String) : List Cell :=
  if c ∈ df.header then df.rows.map (fun r => cellAt r (colIdx df c)) else []

-- ------------------------- constants (source lines 19-23) ------------------

def REQUIRED_COLUMNS : List String :=
  ["Team_Name", "Game_1", "Game_2", "Game_3", "Game_4", "Column 6", "Total_points"]

def GAME_COLUMNS : List String := ["Game_1", "Game_2", "Game_3", "Game_4"]

/-- The six numeric canonical columns, in the order the source coerces them. -/
def NUMERIC_COLUMNS : List String := GAME_COLUMNS ++ ["Column 6", "Total_points"]

-- ------------------------- _normalize_columns (lines 26-56) ----------------

/-- Python `str.strip`: drop leading and trailing whitespace. -/
def pyStrip (s : String) : String :=
  ⟨((s.data.dropWhile Char.isWhitespace).reverse.dropWhile Char.isWhitespace).reverse⟩

/-- Python `str.lower` restricted to ASCII, which covers every alias key. -/
def pyLower (s : String) : String := ⟨s.data.map Char.toLower⟩

/-- Python `dict.get key default` over an association list.  The literal
dictionaries in the source have pairwise distinct keys, so first-match equals
Python's last-binding semantics. -/
def dictGet : List (String × String) → String → String → String
  | [], _, d => d
  | (k, v) :: t, key, d => if k = key then v else dictGet t key d

/-- The fixed alias table of `_normalize_columns` (source lines 31-49). -/
def mapping_candidates : List (String × String) :=
  [("team name", "Team_Name"),
   ("team_name", "Team_Name"),
   ("team", "Team_Name"),
   ("game1", "Game_1"),
   ("game 1", "Game_1"),
   ("game2", "Game_2"),
   ("game 2", "Game_2"),
   ("game3", "Game_3"),
   ("game 3", "Game_3"),
   ("game4", "Game_4"),
   ("game 4", "Game_4"),
   ("column6", "Column 6"),
   ("column_6", "Column 6"),
   ("bonus", "Column 6"),
   ("total", "Total_points"),
   ("total points", "Total_points"),
   ("total_points", "Total_points")]

/-- Canonicalisation of one column label: look up the trimmed and lower-cased
label in the alias table, keep the label unchanged on a miss. -/
def applyAlias (c : String) : String :=
  dictGet mapping_candidates (pyLower (pyStrip c)) c

/-- Source lines 51-56: build the `new_cols` dictionary from the current
header, then `df.rename(columns=new_cols)`, which maps every label through the
dictionary and keeps the rows untouched. -/
def normalize_columns (df : DataFrame) : DataFrame :=
  let new_cols := df.header.map (fun c => (c, applyAlias c))
  ⟨df.header.map (fun c => dictGet new_cols c c), df.rows⟩

-- ------------------------- _ensure_required_columns (lines 59-74) ----------

/-- Integer parser standing for `pd.to_numeric` on a string cell: optional
sign followed by one or more digits (numeric cells are modelled as integers). -/
def parseDigits : List Char → Option Nat
  | [] => none
  | l => if l.all Char.isDigit then some (l.foldl (fun a c => a * 10 + (c.toNat - 48)) 0) else none

/-- String form of `pd.to_numeric(..., errors="coerce")` on one cell:
`none` is NaN. -/
def toNumericCell : Cell → Option Int
  | .num n => some n
  | .blank => none
  | .str s =>
      match (pyStrip s).data with
      | '-' :: rest => (parseDigits rest).map (fun n => -(n : Int))
      | l => (parseDigits l).map (fun n => (n : Int))

/-- One cell of `pd.to_numeric(col, errors="coerce").fillna(0)`. -/
def to_numeric_fill0 (x : Cell) : Cell := Cell.num ((toNumericCell x).getD 0)

/-- Textual form a cell takes under `astype(str)` (pandas renders NaN as
the string "nan"). -/
def cellToString : Cell → String
  | .str s => s
  | .num n => toString n
  | .blank => "nan"

/-- One cell of `col.astype(str)`. -/
def astype_str (x : Cell) : Cell := Cell.str (cellToString x)

/-- Source lines 64-66: `if col not in df.columns: df[col] = 0` — a missing
column is appended, filled with zeros. -/
def fillMissing (df : DataFrame) (col : String) : DataFrame :=
  if col ∈ df.header then df
  else ⟨df.header ++ [col], df.rows.map (fun r => r ++ [Cell.num 0])⟩

/-- Rewrite every cell of the (present) column `col` with `f`, the shape of
the per-column coercion assignments `df[col] = f(df[col])`. -/
def mapColumn (df : DataFrame) (col : String) (f : Cell → Cell) : DataFrame :=
  if col ∈ df.header then
    ⟨df.header, df.rows.map (fun r => r.set (colIdx df col) (f (cellAt r (colIdx df col))))⟩
  else df

/-- Source lines 59-74: create absent required columns as zeros, coerce the
six numeric columns cell-wise, then stringify the name column. -/
def ensure_required_columns (df : DataFrame) : DataFrame :=
  let df1 := REQUIRED_COLUMNS.foldl fillMissing df
  let df2 := NUMERIC_COLUMNS.foldl (fun d c => mapColumn d c to_numeric_fill0) df1
  mapColumn df2 "Team_Name" astype_str

-- ------------------------- _compute_totals_and_rank (lines 77-89) ----------

/-- Numeric value of a cell (non-numeric cells count as 0; after coercion all
relevant cells are numeric). -/
def cellNum : Cell → Int
  | .num n => n
  | _ => 0

/-- One cell of the test `Total_points.fillna(0) == 0` (source line 79). -/
def isZeroWhenFilled : Cell → Bool
  | .num n => n == 0
  | .blank => true
  | .str _ => false

/-- Source line 79: `(df["Total_points"].fillna(0) == 0).all()`. -/
def totals_all_zero (df : DataFrame) : Bool :=
  (getColCells df "Total_points").all isZeroWhenFilled

/-- Source line 80, one row: `df[GAME_COLUMNS].sum(axis=1) + df["Column 6"]`. -/
def rowDerivedTotal (df : DataFrame) (r : List Cell) : Int :=
  (GAME_COLUMNS.map (fun c => cellNum (cellAt r (colIdx df c)))).sum
    + cellNum (cellAt r (colIdx df "Column 6"))

/-- Pandas column assignment `df[col] = values` with one value per row:
overwrite the column when the label exists, else append it. -/
def setColumnBy (df : DataFrame) (col : String) (f : List Cell → Cell) : DataFrame :=
  if col ∈ df.header then
    ⟨df.header, df.rows.map (fun r => r.set (colIdx df col) (f r))⟩
  else ⟨df.header ++ [col], df.rows.map (fun r => r ++ [f r])⟩

/-- Source lines 79-80: derive the whole totals column if and only if every
entry of the column is zero. -/
def deriveTotals (df : DataFrame) : DataFrame :=
  if totals_all_zero df then
    setColumnBy df "Total_points" (fun r => Cell.num (rowDerivedTotal df r))
  else df

/-- The totals column as integers. -/
def totalsInts (df : DataFrame) : List Int := (getColCells df "Total_points").map cellNum

/-- Pandas `rank(method="dense", ascending=False)` of value `v` within
`vals`: one more than the number of distinct values above `v`. -/
def denseRankDesc (vals : List Int) (v : Int) : Nat :=
  1 + (vals.toFinset.filter (fun w => v < w)).card

/-- Source line 83: `df["Rank"] = df["Total_points"].rank(method="dense",
ascending=False).astype(int)`. -/
def addRank (df : DataFrame) : DataFrame :=
  setColumnBy df "Rank"
    (fun r => Cell.num (denseRankDesc (totalsInts df) (cellNum (cellAt r (colIdx df "Total_points")))))

/-- Python string strict comparison: code-point lexicographic order on the
character sequences. -/
def pyStrLt (a b : String) : Prop := List.Lex (· < ·) a.data b.data

instance : DecidableRel pyStrLt := by
  unfold pyStrLt; infer_instance

/-- Python `a <= b` on strings: not `b < a`. -/
def pyStrLE (a b : String) : Prop := ¬ pyStrLt b a

instance : DecidableRel pyStrLE := by
  unfold pyStrLE; infer_instance

/-- Row order of `sort_values(["Total_points", "Team_Name"],
ascending=[False, True])`: totals descending, names ascending on ties. -/
def rowLE (ti ni : Nat) (r r' : List Cell) : Prop :=
  cellNum (cellAt r' ti) < cellNum (cellAt r ti) ∨
    (cellNum (cellAt r ti) = cellNum (cellAt r' ti) ∧
      pyStrLE (cellToString (cellAt r ni)) (cellToString (cellAt r' ni)))

instance (ti ni : Nat) : DecidableRel (rowLE ti ni) := by
  unfold rowLE; infer_instance

/-- Source line 84: sort the rows (a deterministic refinement of
`sort_values`, whose order among fully equal keys is unspecified). -/
def sortTable (df : DataFrame) : DataFrame :=
  ⟨df.header,
   List.insertionSort (rowLE (colIdx df "Total_points") (colIdx df "Team_Name")) df.rows⟩

/-- Source line 87: the fixed output column order. -/
def ORDERED_COLS : List String :=
  ["Rank", "Team_Name"] ++ GAME_COLUMNS ++ ["Column 6", "Total_points"]

/-- Source line 88: `df = df[ordered_cols]` — project onto the fixed columns,
dropping everything else. -/
def selectColumns (df : DataFrame) : DataFrame :=
  ⟨ORDERED_COLS, df.rows.map (fun r => ORDERED_COLS.map (fun c => cellAt r (colIdx df c)))⟩

/-- Source lines 77-89. -/
def compute_totals_and_rank (df : DataFrame) : DataFrame :=
  selectColumns (sortTable (addRank (deriveTotals df)))

-- ------------------------- data loading (lines 93-113, 141-150) ------------

/-- Source lines 93-104: the built-in placeholder table, rows of
`Team_1` .. `Team_8` with every numeric field 0 (the column dictionary is
transposed into rows). -/
def load_base_data : DataFrame :=
  ⟨REQUIRED_COLUMNS,
   (List.range 8).map (fun i => Cell.str ("Team_" ++ toString (i + 1)) :: List.replicate 6 (Cell.num 0))⟩

/-- The processing applied to a fetched table (source lines 110-112). -/
def processTable (df : DataFrame) : DataFrame :=
  compute_totals_and_rank (ensure_required_columns (normalize_columns df))

/-- Source lines 107-113: fetching yields either a raw table or a failure
reason; processing is applied to a successful fetch. -/
def load_from_gsheet (fetched : Except String DataFrame) : Except String DataFrame :=
  fetched.map processTable

/-- Source lines 141-150: the `try/except` around loading.  On any failure the
placeholder table is substituted and the failure reason is kept for the
user-visible error message, separate from the table. -/
def loadData (fetched : Except String DataFrame) : DataFrame × Option String :=
  match load_from_gsheet fetched with
  | .ok df => (df, none)
  | .error e => (load_base_data, some ("Could not load Sheet: " ++ e))

-- ------------------------- statistics (lines 186-202) ----------------------

/-- Source line 189: `len(df)`. -/
def teamCount (df : DataFrame) : Nat := df.rows.length

/-- Maximum of a list of integers, 0 for the empty list (the source guards
every use of `max()` by `len(df)`). -/
def maxList : List Int → Int
  | [] => 0
  | x :: xs => xs.foldl max x

/-- `df["Total_points"].max()` as used in lines 192 and 198. -/
def maxTotal (df : DataFrame) : Int := maxList (totalsInts df)

/-- Row order of `sort_values("Total_points", ascending=False)`. -/
def totalDescRel (ti : Nat) (r r' : List Cell) : Prop :=
  cellNum (cellAt r' ti) ≤ cellNum (cellAt r ti)

instance (ti : Nat) : DecidableRel (totalDescRel ti) := by
  unfold totalDescRel; infer_instance

/-- Source lines 198-202: leading team name, or the sentinel "TBD" when the
table is empty or no total is positive. -/
def leadingTeam (df : DataFrame) : String :=
  if df.rows.length ≠ 0 ∧ 0 < maxTotal df then
    cellToString
      (cellAt ((List.insertionSort (totalDescRel (colIdx df "Total_points")) df.rows).headD [])
        (colIdx df "Team_Name"))
  else "TBD"

-- ------------------------- normalized-table predicate ----------------------

/-- True on numeric cells. -/
def Cell.isNum : Cell → Bool
  | .num _ => true
  | _ => false

/-- True on string cells. -/
def Cell.isStr : Cell → Bool
  | .str _ => true
  | _ => false

/-- A table as produced by the schema normalizer: rectangular, duplicate-free
header containing every canonical column, numeric cells in the six numeric
columns and string cells in the name column. -/
def Normalized (df : DataFrame) : Prop :=
  Wf df ∧ df.header.Nodup ∧
    (∀ c ∈ REQUIRED_COLUMNS, c ∈ df.header) ∧
    (∀ c ∈ NUMERIC_COLUMNS, ∀ x ∈ getColCells df c, x.isNum = true) ∧
    (∀ x ∈ getColCells df "Team_Name", x.isStr = true)

instance (df : DataFrame) : Decidable (Normalized df) := by
  unfold Normalized; infer_instance

-- ------------------------- output-row accessors ----------------------------

/-- Rank entry of a row of the final table (output column 0). -/
def outRank (r : List Cell) : Int := cellNum (cellAt r 0)

/-- Name entry of a row of the final table (output column 1). -/
def outName (r : List Cell) : String := cellToString (cellAt r 1)

/-- Total entry of a row of the final table (output column 7). -/
def outTotal (r : List Cell) : Int := cellNum (cellAt r 7)

/-- Presentation order of the final table: totals descending, names ascending
(code-point order) on ties. -/
def outKeyLE (r r' : List Cell) : Prop :=
  outTotal r' < outTotal r ∨ (outTotal r = outTotal r' ∧ pyStrLE (outName r) (outName r'))

-- ------------------------- concrete tables used in witnesses ---------------

/-- A normalized table with a tie (totals 100, 80, 80, 50). -/
def exampleNormalized : DataFrame :=
  ⟨REQUIRED_COLUMNS,
   [[Cell.str "A", Cell.num 50, Cell.num 30, Cell.num 10, Cell.num 5, Cell.num 5, Cell.num 100],
    [Cell.str "Bravo", Cell.num 40, Cell.num 30, Cell.num 5, Cell.num 3, Cell.num 2, Cell.num 80],
    [Cell.str "Alpha", Cell.num 40, Cell.num 30, Cell.num 5, Cell.num 3, Cell.num 2, Cell.num 80],
    [Cell.str "D", Cell.num 25, Cell.num 15, Cell.num 5, Cell.num 3, Cell.num 2, Cell.num 50]]⟩

/-- A normalized table whose whole totals column is zero; the first row has
category scores 10, 20, 5, 0 and bonus 5 (the spec walk-through). -/
def exampleAllZeroTotals : DataFrame :=
  ⟨REQUIRED_COLUMNS,
   [[Cell.str "Alpha", Cell.num 10, Cell.num 20, Cell.num 5, Cell.num 0, Cell.num 5, Cell.num 0],
    [Cell.str "Beta", Cell.num 1, Cell.num 2, Cell.num 3, Cell.num 4, Cell.num 0, Cell.num 0]]⟩

/-- A normalized table with one nonzero supplied total and one zero total
whose category scores sum to 15 (the spec walk-through for no recomputation). -/
def exampleMixedTotals : DataFrame :=
  ⟨REQUIRED_COLUMNS,
   [[Cell.str "A", Cell.num 5, Cell.num 5, Cell.num 5, Cell.num 0, Cell.num 0, Cell.num 50],
    [Cell.str "B", Cell.num 5, Cell.num 5, Cell.num 5, Cell.num 0, Cell.num 0, Cell.num 0]]⟩

/-- A raw table with aliased headers, an unrecognized header, a negative
numeric string, an unparseable string and a blank cell. -/
def exampleRaw : DataFrame :=
  ⟨["Team Name", " GAME1", "Notes"],
   [[Cell.str "x", Cell.str "-5", Cell.num 7],
    [Cell.num 3, Cell.str "junk", Cell.blank]]⟩

/-- A minimal raw table. -/
def exampleTiny : DataFrame := ⟨["Team", "Total"], [[Cell.str "A", Cell.num 3]]⟩

/-- Two distinct raw columns that both alias to the canonical name column. -/
def exampleDupAlias : DataFrame := ⟨["Team", "Team_Name"], [[Cell.str "A", Cell.str "B"]]⟩

/-- A normalized table with no rows. -/
def exampleEmpty : DataFrame := ⟨REQUIRED_COLUMNS, []⟩

-- ------------------------- index and cell lemmas ---------------------------

theorem idxOf_of_not_mem {c : String} : ∀ {l : List String}, c ∉ l → idxOf c l = l.length
  | [], _ => rfl
  | h :: t, hm => by
    have hne : h ≠ c := fun he => hm (he ▸ List.mem_cons_self h t)
    have ht : c ∉ t := fun he => hm (List.mem_cons_of_mem h he)
    simp [idxOf, hne, idxOf_of_not_mem ht]

theorem idxOf_lt_length {c : String} : ∀ {l : List String}, c ∈ l → idxOf c l < l.length
  | [], hm => absurd hm (List.not_mem_nil c)
  | h :: t, hm => by
    by_cases he : h = c
    · simp [idxOf, he]
    · have ht : c ∈ t := by
        rcases List.mem_cons.mp hm with h1 | h1
        · exact absurd h1.symm he
        · exact h1
      simp only [idxOf, he, if_false, List.length_cons]
      exact Nat.succ_lt_succ (idxOf_lt_length ht)

theorem getD_idxOf {c : String} : ∀ {l : List String}, c ∈ l → l.getD (idxOf c l) "" = c
  | [], hm => absurd hm (List.not_mem_nil c)
  | h :: t, hm => by
    by_cases he : h = c
    · simp [idxOf, he]
    · have ht : c ∈ t := by
        rcases List.mem_cons.mp hm with h1 | h1
        · exact absurd h1.symm he
        · exact h1
      simp only [idxOf, he, if_false, List.getD_cons_succ]
      exact getD_idxOf ht

theorem idxOf_append_left {c : String} :
    ∀ {l₁ : List String} (l₂ : List String), c ∈ l₁ → idxOf c (l₁ ++ l₂) = idxOf c l₁
  | [], _, hm => absurd hm (List.not_mem_nil c)
  | h :: t, l₂, hm => by
    by_cases he : h = c
    · simp [idxOf, he]
    · have ht : c ∈ t := by
        rcases List.mem_cons.mp hm with h1 | h1
        · exact absurd h1.symm he
        · exact h1
      simp [idxOf, he, idxOf_append_left l₂ ht]

theorem idxOf_append_right {c : String} :
    ∀ {l₁ : List String} (l₂ : List String), c ∉ l₁ →
      idxOf c (l₁ ++ l₂) = l₁.length + idxOf c l₂
  | [], _, _ => by simp [idxOf]
  | h :: t, l₂, hm => by
    have hne : h ≠ c := fun he => hm (he ▸ List.mem_cons_self h t)
    have ht : c ∉ t := fun he => hm (List.mem_cons_of_mem h he)
    have ih := @idxOf_append_right c t l₂ ht
    simp only [List.cons_append, idxOf, hne, if_false, List.length_cons]
    simp only [List.append_eq] at ih ⊢
    omega

theorem getD_mem_of_lt {l : List String} {i : Nat} (hi : i < l.length) :
    l.getD i "" ∈ l := by
  rw [List.getD_eq_getElem?_getD, List.getElem?_eq_getElem hi]
  exact List.getElem_mem hi

theorem eq_idxOf_of_getD {l : List String} {c : String} {i : Nat} (N : l.Nodup)
    (hi : i < l.length) (hc : l.getD i "" = c) : i = idxOf c l := by
  induction l generalizing i with
  | nil => exact absurd hi (Nat.not_lt_zero i)
  | cons h t ih =>
    rcases Nat.eq_zero_or_pos i with h0 | hpos
    · subst h0
      simp only [List.getD_cons_zero] at hc
      simp [idxOf, hc]
    · obtain ⟨j, rfl⟩ : ∃ j, i = j + 1 := ⟨i - 1, by omega⟩
      have hj : j < t.length := by simpa [Nat.succ_lt_succ_iff] using hi
      have hc' : t.getD j "" = c := by simpa [List.getD_cons_succ] using hc
      have hN : t.Nodup := (List.nodup_cons.mp N).2
      have hne : h ≠ c := by
        intro he
        exact (List.nodup_cons.mp N).1 (he ▸ hc' ▸ getD_mem_of_lt hj)
      simp [idxOf, hne, ih hN hj hc']

theorem cellAt_append_lt (r : List Cell) (x : Cell) {i : Nat} (h : i < r.length) :
    cellAt (r ++ [x]) i = cellAt r i := by
  simp [cellAt, List.getD_eq_getElem?_getD, List.getElem?_append_left h]

theorem cellAt_append_self (r : List Cell) (x : Cell) : cellAt (r ++ [x]) r.length = x := by
  simp [cellAt, List.getD_eq_getElem?_getD, List.getElem?_append_right (Nat.le_refl r.length)]

theorem cellAt_set_self (r : List Cell) {i : Nat} (h : i < r.length) (v : Cell) :
    cellAt (r.set i v) i = v := by
  simp [cellAt, List.getD_eq_getElem?_getD, List.getElem?_set_self', h]

theorem cellAt_set_ne (r : List Cell) {i j : Nat} (h : i ≠ j) (v : Cell) :
    cellAt (r.set i v) j = cellAt r j := by
  simp [cellAt, List.getD_eq_getElem?_getD, List.getElem?_set_ne h]

theorem set_cellAt_self : ∀ (r : List Cell) (i : Nat), r.set i (cellAt r i) = r
  | [], _ => rfl
  | _ :: _, 0 => by simp [cellAt, List.getD]
  | h :: t, j + 1 => by
    simp only [List.set_cons_succ, List.cons.injEq, true_and]
    simpa [cellAt, List.getD] using set_cellAt_self t j

-- ------------------------- fillMissing lemmas ------------------------------

theorem fillMissing_header (df : DataFrame) (col : String) :
    (fillMissing df col).header =
      if col ∈ df.header then df.header else df.header ++ [col] := by
  unfold fillMissing
  split <;> rfl

theorem fillMissing_rows_length (df : DataFrame) (col : String) :
    (fillMissing df col).rows.length = df.rows.length := by
  unfold fillMissing
  split <;> simp

theorem mem_fillMissing_header {df : DataFrame} {col c' : String} :
    c' ∈ (fillMissing df col).header ↔ c' ∈ df.header ∨ c' = col := by
  rw [fillMissing_header]
  split
  · rename_i h
    constructor
    · exact Or.inl
    · rintro (h1 | rfl)
      · exact h1
      · exact h
  · simp [List.mem_append]

theorem fillMissing_wf {df : DataFrame} (W : Wf df) (col : String) :
    Wf (fillMissing df col) := by
  unfold fillMissing
  split
  · exact W
  · intro r hr
    rcases List.mem_map.mp hr with ⟨r0, hr0, rfl⟩
    simp [W r0 hr0]

theorem fillMissing_nodup {df : DataFrame} (N : df.header.Nodup) (col : String) :
    (fillMissing df col).header.Nodup := by
  unfold fillMissing
  split
  · exact N
  · rename_i h
    exact N.append (List.nodup_singleton col) (by simpa [List.disjoint_singleton] using h)

theorem getColCells_fillMissing_of_mem {df : DataFrame} (W : Wf df) {c' : String}
    (h : c' ∈ df.header) (col : String) :
    getColCells (fillMissing df col) c' = getColCells df c' := by
  unfold fillMissing
  split
  · rfl
  · have hmem : c' ∈ df.header ++ [col] := List.mem_append_left _ h
    simp only [getColCells, colIdx, hmem, if_pos, h, List.map_map]
    rw [idxOf_append_left _ h]
    refine List.map_congr_left fun r hr => ?_
    have hlt : idxOf c' df.header < r.length := (W r hr) ▸ idxOf_lt_length h
    exact cellAt_append_lt r _ hlt

theorem getColCells_fillMissing_self {df : DataFrame} (W : Wf df) {col : String}
    (h : col ∉ df.header) :
    getColCells (fillMissing df col) col = df.rows.map (fun _ => Cell.num 0) := by
  unfold fillMissing
  rw [if_neg h]
  have hmem : col ∈ df.header ++ [col] := List.mem_append_right _ (List.mem_singleton_self col)
  simp only [getColCells, colIdx, hmem, if_pos, List.map_map]
  rw [idxOf_append_right _ h]
  refine List.map_congr_left fun r hr => ?_
  have : idxOf col [col] = 0 := by simp [idxOf]
  rw [this, Nat.add_zero, Function.comp_apply, ← W r hr, cellAt_append_self]

theorem getColCells_fillMissing_absent {df : DataFrame} {col c' : String}
    (h1 : c' ∉ df.header) (h2 : c' ≠ col) :
    getColCells (fillMissing df col) c' = [] := by
  have : c' ∉ (fillMissing df col).header := by
    rw [mem_fillMissing_header]
    rintro (h | h)
    · exact h1 h
    · exact h2 h
  simp [getColCells, this]

-- ------------------------- mapColumn lemmas --------------------------------

theorem mapColumn_header (df : DataFrame) (col : String) (f : Cell → Cell) :
    (mapColumn df col f).header = df.header := by
  unfold mapColumn
  split <;> rfl

theorem mapColumn_rows_length (df : DataFrame) (col : String) (f : Cell → Cell) :
    (mapColumn df col f).rows.length = df.rows.length := by
  unfold mapColumn
  split <;> simp

theorem mapColumn_wf {df : DataFrame} (W : Wf df) (col : String) (f : Cell → Cell) :
    Wf (mapColumn df col f) := by
  unfold mapColumn
  split
  · intro r hr
    rcases List.mem_map.mp hr with ⟨r0, hr0, rfl⟩
    simp [W r0 hr0]
  · exact W

theorem getColCells_mapColumn_self {df : DataFrame} (W : Wf df) {col : String}
    (h : col ∈ df.header) (f : Cell → Cell) :
    getColCells (mapColumn df col f) col = (getColCells df col).map f := by
  unfold mapColumn
  rw [if_pos h]
  simp only [getColCells, colIdx, h, if_pos, List.map_map]
  refine List.map_congr_left fun r hr => ?_
  have hlt : idxOf col df.header < r.length := (W r hr) ▸ idxOf_lt_length h
  exact cellAt_set_self r hlt _

theorem getColCells_mapColumn_ne {df : DataFrame}
    {col c' : String} (hne : c' ≠ col) (f : Cell → Cell) :
    getColCells (mapColumn df col f) c' = getColCells df c' := by
  unfold mapColumn
  split
  · rename_i hcol
    by_cases h' : c' ∈ df.header
    · simp only [getColCells, colIdx, h', if_pos, List.map_map]
      refine List.map_congr_left fun r hr => ?_
      have hidx : idxOf col df.header ≠ idxOf c' df.header := by
        intro he
        have h1 := getD_idxOf hcol
        have h2 := getD_idxOf h'
        rw [he] at h1
        exact hne (h2.symm.trans h1)
      exact cellAt_set_ne r hidx _
    · simp [getColCells, h']
  · rfl

-- ------------------------- setColumnBy lemmas ------------------------------

theorem setColumnBy_header (df : DataFrame) (col : String) (f : List Cell → Cell) :
    (setColumnBy df col f).header =
      if col ∈ df.header then df.header else df.header ++ [col] := by
  unfold setColumnBy
  split <;> rfl

theorem setColumnBy_rows_length (df : DataFrame) (col : String) (f : List Cell → Cell) :
    (setColumnBy df col f).rows.length = df.rows.length := by
  unfold setColumnBy
  split <;> simp

theorem mem_setColumnBy_header {df : DataFrame} {col c' : String} {f : List Cell → Cell} :
    c' ∈ (setColumnBy df col f).header ↔ c' ∈ df.header ∨ c' = col := by
  rw [setColumnBy_header]
  split
  · rename_i h
    constructor
    · exact Or.inl
    · rintro (h1 | rfl)
      · exact h1
      · exact h
  · simp [List.mem_append]

theorem setColumnBy_wf {df : DataFrame} (W : Wf df) (col : String) (f : List Cell → Cell) :
    Wf (setColumnBy df col f) := by
  unfold setColumnBy
  split
  · intro r hr
    rcases List.mem_map.mp hr with ⟨r0, hr0, rfl⟩
    simp [W r0 hr0]
  · intro r hr
    rcases List.mem_map.mp hr with ⟨r0, hr0, rfl⟩
    simp [W r0 hr0]

theorem setColumnBy_nodup {df : DataFrame} (N : df.header.Nodup) (col : String)
    (f : List Cell → Cell) : (setColumnBy df col f).header.Nodup := by
  rw [setColumnBy_header]
  split
  · exact N
  · rename_i h
    exact N.append (List.nodup_singleton col) (by simpa [List.disjoint_singleton] using h)

theorem colIdx_setColumnBy_of_mem {df : DataFrame} {c' : String} (h : c' ∈ df.header)
    (col : String) (f : List Cell → Cell) :
    colIdx (setColumnBy df col f) c' = colIdx df c' := by
  unfold colIdx
  rw [setColumnBy_header]
  split
  · rfl
  · exact idxOf_append_left _ h

theorem getColCells_setColumnBy_self {df : DataFrame} (W : Wf df) (col : String)
    (f : List Cell → Cell) :
    getColCells (setColumnBy df col f) col = df.rows.map f := by
  unfold setColumnBy
  split
  · rename_i h
    simp only [getColCells, colIdx, h, if_pos, List.map_map]
    refine List.map_congr_left fun r hr => ?_
    have hlt : idxOf col df.header < r.length := (W r hr) ▸ idxOf_lt_length h
    exact cellAt_set_self r hlt _
  · rename_i h
    have hmem : col ∈ df.header ++ [col] := List.mem_append_right _ (List.mem_singleton_self col)
    simp only [getColCells, colIdx, hmem, if_pos, List.map_map]
    rw [idxOf_append_right _ h]
    refine List.map_congr_left fun r hr => ?_
    have h0 : idxOf col [col] = 0 := by simp [idxOf]
    rw [h0, Nat.add_zero, Function.comp_apply, ← W r hr, cellAt_append_self]

theorem getColCells_setColumnBy_ne {df : DataFrame} (W : Wf df) {col c' : String}
    (hne : c' ≠ col) (f : List Cell → Cell) :
    getColCells (setColumnBy df col f) c' = getColCells df c' := by
  unfold setColumnBy
  split
  · rename_i hcol
    by_cases h' : c' ∈ df.header
    · simp only [getColCells, colIdx, h', if_pos, List.map_map]
      refine List.map_congr_left fun r hr => ?_
      have hidx : idxOf col df.header ≠ idxOf c' df.header := by
        intro he
        have h1 := getD_idxOf hcol
        have h2 := getD_idxOf h'
        rw [he] at h1
        exact hne (h2.symm.trans h1)
      exact cellAt_set_ne r hidx _
    · simp [getColCells, h']
  · rename_i hcol
    by_cases h' : c' ∈ df.header
    · have hmem : c' ∈ df.header ++ [col] := List.mem_append_left _ h'
      simp only [getColCells, colIdx, hmem, if_pos, h', List.map_map]
      rw [idxOf_append_left _ h']
      refine List.map_congr_left fun r hr => ?_
      have hlt : idxOf c' df.header < r.length := (W r hr) ▸ idxOf_lt_length h'
      exact cellAt_append_lt r _ hlt
    · have hout : c' ∉ df.header ++ [col] := by
        intro hmem
        rcases List.mem_append.mp hmem with h | h
        · exact h' h
        · exact hne (List.mem_singleton.mp h)
      simp [getColCells, h', hout]

theorem setColumnBy_rows_mem {df : DataFrame} {col : String} {f : List Cell → Cell}
    (W : Wf df) {r' : List Cell} (h : r' ∈ (setColumnBy df col f).rows) :
    ∃ r ∈ df.rows,
      cellAt r' (colIdx (setColumnBy df col f) col) = f r ∧
      ∀ c', c' ≠ col → c' ∈ df.header →
        cellAt r' (colIdx df c') = cellAt r (colIdx df c') := by
  unfold setColumnBy at h ⊢
  split at h
  · rename_i hcol
    rcases List.mem_map.mp h with ⟨r, hr, rfl⟩
    refine ⟨r, hr, ?_, ?_⟩
    · rw [if_pos hcol]
      have hlt : idxOf col df.header < r.length := (W r hr) ▸ idxOf_lt_length hcol
      exact cellAt_set_self r hlt _
    · intro c' hne h'
      have hidx : idxOf col df.header ≠ idxOf c' df.header := by
        intro he
        have h1 := getD_idxOf hcol
        have h2 := getD_idxOf h'
        rw [he] at h1
        exact hne (h2.symm.trans h1)
      exact cellAt_set_ne r hidx _
  · rename_i hcol
    rcases List.mem_map.mp h with ⟨r, hr, rfl⟩
    refine ⟨r, hr, ?_, ?_⟩
    · rw [if_neg hcol]
      show cellAt (r ++ [f r]) (idxOf col (df.header ++ [col])) = f r
      rw [idxOf_append_right _ hcol]
      have h0 : idxOf col [col] = 0 := by simp [idxOf]
      rw [h0, Nat.add_zero, ← W r hr, cellAt_append_self]
    · intro c' _ h'
      have hlt : idxOf c' df.header < r.length := (W r hr) ▸ idxOf_lt_length h'
      exact cellAt_append_lt r _ hlt

-- ------------------------- fold lemmas for the normalizer ------------------

theorem foldl_fillMissing_spec :
    ∀ (cs : List String) (df : DataFrame), Wf df → df.header.Nodup → cs.Nodup →
      (cs.foldl fillMissing df).header
          = df.header ++ cs.filter (fun c => !decide (c ∈ df.header)) ∧
      Wf (cs.foldl fillMissing df) ∧
      (cs.foldl fillMissing df).header.Nodup ∧
      (cs.foldl fillMissing df).rows.length = df.rows.length ∧
      (∀ c', c' ∈ df.header →
        getColCells (cs.foldl fillMissing df) c' = getColCells df c') ∧
      (∀ c', c' ∉ df.header → c' ∈ cs →
        getColCells (cs.foldl fillMissing df) c'
          = List.replicate df.rows.length (Cell.num 0)) ∧
      (∀ c', c' ∉ df.header → c' ∉ cs →
        getColCells (cs.foldl fillMissing df) c' = [])
  | [], df, W, N, _ => by
    refine ⟨by simp, W, N, rfl, fun c' _ => rfl, fun c' _ h => absurd h (List.not_mem_nil c'),
      fun c' h _ => by simp [getColCells, h]⟩
  | c :: rest, df, W, N, Ncs => by
    have hc_rest : c ∉ rest := (List.nodup_cons.mp Ncs).1
    have Nrest : rest.Nodup := (List.nodup_cons.mp Ncs).2
    have W' : Wf (fillMissing df c) := fillMissing_wf W c
    have N' : (fillMissing df c).header.Nodup := fillMissing_nodup N c
    obtain ⟨ih_hdr, ih_wf, ih_nodup, ih_len, ih_keep, ih_new, ih_out⟩ :=
      foldl_fillMissing_spec rest (fillMissing df c) W' N' Nrest
    simp only [List.foldl_cons]
    refine ⟨?_, ih_wf, ih_nodup, by rw [ih_len, fillMissing_rows_length], ?_, ?_, ?_⟩
    · rw [ih_hdr, fillMissing_header]
      by_cases hc : c ∈ df.header
      · rw [if_pos hc]
        have : (c :: rest).filter (fun x => !decide (x ∈ df.header))
            = rest.filter (fun x => !decide (x ∈ df.header)) := by
          simp [List.filter_cons, hc]
        rw [this]
      · rw [if_neg hc]
        have hfc : (c :: rest).filter (fun x => !decide (x ∈ df.header))
            = c :: rest.filter (fun x => !decide (x ∈ df.header)) := by
          simp [List.filter_cons, hc]
        rw [hfc]
        have hfr : rest.filter (fun x => !decide (x ∈ df.header ++ [c]))
            = rest.filter (fun x => !decide (x ∈ df.header)) := by
          refine List.filter_congr fun x hx => ?_
          have hxc : x ≠ c := fun he => hc_rest (he ▸ hx)
          simp [List.mem_append, hxc]
        rw [hfr]
        simp
    · intro c' h'
      have h'' : c' ∈ (fillMissing df c).header := mem_fillMissing_header.mpr (Or.inl h')
      rw [ih_keep c' h'', getColCells_fillMissing_of_mem W h' c]
    · intro c' h' hmem
      rcases List.mem_cons.mp hmem with rfl | hr
      · have h'' : c' ∈ (fillMissing df c').header := mem_fillMissing_header.mpr (Or.inr rfl)
        rw [ih_keep c' h'', getColCells_fillMissing_self W h', List.map_const']
      · by_cases hcc : c' = c
        · subst hcc
          have h'' : c' ∈ (fillMissing df c').header := mem_fillMissing_header.mpr (Or.inr rfl)
          rw [ih_keep c' h'', getColCells_fillMissing_self W h', List.map_const']
        · have h'' : c' ∉ (fillMissing df c).header := by
            rw [mem_fillMissing_header]
            rintro (h1 | h1)
            · exact h' h1
            · exact hcc h1
          rw [ih_new c' h'' hr, fillMissing_rows_length]
    · intro c' h' hmem
      have hcc : c' ≠ c := fun he => hmem (he ▸ List.mem_cons_self c rest)
      have hrr : c' ∉ rest := fun he => hmem (List.mem_cons_of_mem c he)
      have h'' : c' ∉ (fillMissing df c).header := by
        rw [mem_fillMissing_header]
        rintro (h1 | h1)
        · exact h' h1
        · exact hcc h1
      exact ih_out c' h'' hrr

theorem foldl_mapColumn_spec (g : Cell → Cell) :
    ∀ (cs : List String) (df : DataFrame), Wf df → cs.Nodup →
      (cs.foldl (fun d c => mapColumn d c g) df).header = df.header ∧
      Wf (cs.foldl (fun d c => mapColumn d c g) df) ∧
      (cs.foldl (fun d c => mapColumn d c g) df).rows.length = df.rows.length ∧
      (∀ c', c' ∈ cs → c' ∈ df.header →
        getColCells (cs.foldl (fun d c => mapColumn d c g) df) c'
          = (getColCells df c').map g) ∧
      (∀ c', c' ∉ cs →
        getColCells (cs.foldl (fun d c => mapColumn d c g) df) c' = getColCells df c') ∧
      (∀ c', c' ∈ cs → c' ∉ df.header →
        getColCells (cs.foldl (fun d c => mapColumn d c g) df) c' = getColCells df c')
  | [], df, W, _ => by
    exact ⟨rfl, W, rfl, fun c' h _ => absurd h (List.not_mem_nil c'),
      fun c' _ => rfl, fun c' h _ => absurd h (List.not_mem_nil c')⟩
  | c :: rest, df, W, Ncs => by
    have hc_rest : c ∉ rest := (List.nodup_cons.mp Ncs).1
    have Nrest : rest.Nodup := (List.nodup_cons.mp Ncs).2
    have W' : Wf (mapColumn df c g) := mapColumn_wf W c g
    obtain ⟨ih_hdr, ih_wf, ih_len, ih_in, ih_out, ih_abs⟩ :=
      foldl_mapColumn_spec g rest (mapColumn df c g) W' Nrest
    simp only [List.foldl_cons]
    refine ⟨by rw [ih_hdr, mapColumn_header], ih_wf,
      by rw [ih_len, mapColumn_rows_length], ?_, ?_, ?_⟩
    · intro c' hmem h'
      rcases List.mem_cons.mp hmem with rfl | hr
      · rw [ih_out c' hc_rest, getColCells_mapColumn_self W h' g]
      · have hcc : c' ≠ c := fun he => hc_rest (he ▸ hr)
        have h'' : c' ∈ (mapColumn df c g).header := by rw [mapColumn_header]; exact h'
        rw [ih_in c' hr h'', getColCells_mapColumn_ne hcc g]
    · intro c' hmem
      have hcc : c' ≠ c := fun he => hmem (he ▸ List.mem_cons_self c rest)
      have hrr : c' ∉ rest := fun he => hmem (List.mem_cons_of_mem c he)
      rw [ih_out c' hrr, getColCells_mapColumn_ne hcc g]
    · intro c' hmem h'
      rcases List.mem_cons.mp hmem with rfl | hr
      · have hdf : mapColumn df c' g = df := by unfold mapColumn; rw [if_neg h']
        rw [hdf] at ih_out ⊢
        exact ih_out c' hc_rest
      · have h'' : c' ∉ (mapColumn df c g).header := by rw [mapColumn_header]; exact h'
        by_cases hcc : c' = c
        · subst hcc
          have hdf : mapColumn df c' g = df := by unfold mapColumn; rw [if_neg h']
          rw [hdf] at ih_abs ⊢
          exact ih_abs c' hr h'
        · rw [ih_abs c' hr h'', getColCells_mapColumn_ne hcc g]

-- ------------------------- characterization of the normalizer --------------

/-- Complete characterization of `ensure_required_columns` on a rectangular
table with duplicate-free header: missing canonical columns are appended (as
zeros), the six numeric columns are coerced cell-wise, the name column is
stringified cell-wise, and all other columns are untouched. -/
theorem ensure_spec (df : DataFrame) (W : Wf df) (N : df.header.Nodup) :
    (ensure_required_columns df).header
        = df.header ++ REQUIRED_COLUMNS.filter (fun c => !decide (c ∈ df.header)) ∧
    Wf (ensure_required_columns df) ∧
    (ensure_required_columns df).header.Nodup ∧
    (ensure_required_columns df).rows.length = df.rows.length ∧
    (∀ c ∈ NUMERIC_COLUMNS,
      getColCells (ensure_required_columns df) c
        = (if c ∈ df.header then getColCells df c
           else List.replicate df.rows.length (Cell.num 0)).map to_numeric_fill0) ∧
    (getColCells (ensure_required_columns df) "Team_Name"
        = (if "Team_Name" ∈ df.header then getColCells df "Team_Name"
           else List.replicate df.rows.length (Cell.num 0)).map astype_str) ∧
    (∀ c', c' ∉ REQUIRED_COLUMNS →
      getColCells (ensure_required_columns df) c' = getColCells df c') := by
  have hReqN : REQUIRED_COLUMNS.Nodup := by decide
  have hNumN : NUMERIC_COLUMNS.Nodup := by decide
  have hsub : ∀ x ∈ NUMERIC_COLUMNS, x ∈ REQUIRED_COLUMNS := by decide
  have hneTm : ∀ x ∈ NUMERIC_COLUMNS, x ≠ "Team_Name" := by decide
  have hTmReq : ("Team_Name" : String) ∈ REQUIRED_COLUMNS := by decide
  have hTmNum : ("Team_Name" : String) ∉ NUMERIC_COLUMNS := by decide
  obtain ⟨A_hdr, A_wf, A_nodup, A_len, A_keep, A_new, A_out⟩ :=
    foldl_fillMissing_spec REQUIRED_COLUMNS df W N hReqN
  have hmem1 : ∀ cc ∈ REQUIRED_COLUMNS, cc ∈ (REQUIRED_COLUMNS.foldl fillMissing df).header := by
    intro cc hcc
    rw [A_hdr]
    by_cases h : cc ∈ df.header
    · exact List.mem_append_left _ h
    · exact List.mem_append_right _ (List.mem_filter.mpr ⟨hcc, by simp [h]⟩)
  obtain ⟨B_hdr, B_wf, B_len, B_in, B_out, B_abs⟩ :=
    foldl_mapColumn_spec to_numeric_fill0 NUMERIC_COLUMNS
      (REQUIRED_COLUMNS.foldl fillMissing df) A_wf hNumN
  have hEq : ensure_required_columns df
      = mapColumn
          (NUMERIC_COLUMNS.foldl (fun d c => mapColumn d c to_numeric_fill0)
            (REQUIRED_COLUMNS.foldl fillMissing df))
          "Team_Name" astype_str := rfl
  have hTm2 : ("Team_Name" : String)
      ∈ (NUMERIC_COLUMNS.foldl (fun d c => mapColumn d c to_numeric_fill0)
          (REQUIRED_COLUMNS.foldl fillMissing df)).header := by
    rw [B_hdr]
    exact hmem1 _ hTmReq
  refine ⟨?_, ?_, ?_, ?_, ?_, ?_, ?_⟩
  · rw [hEq, mapColumn_header, B_hdr, A_hdr]
  · rw [hEq]
    exact mapColumn_wf B_wf _ _
  · rw [hEq, mapColumn_header, B_hdr]
    exact A_nodup
  · rw [hEq, mapColumn_rows_length, B_len, A_len]
  · intro c hc
    rw [hEq, getColCells_mapColumn_ne (hneTm c hc) astype_str,
      B_in c hc (hmem1 c (hsub c hc))]
    by_cases h : c ∈ df.header
    · rw [A_keep c h, if_pos h]
    · rw [A_new c h (hsub c hc), if_neg h]
  · rw [hEq, getColCells_mapColumn_self B_wf hTm2 astype_str, B_out _ hTmNum]
    by_cases h : ("Team_Name" : String) ∈ df.header
    · rw [A_keep _ h, if_pos h]
    · rw [A_new _ h hTmReq, if_neg h]
  · intro c' hc'
    have h1 : c' ≠ "Team_Name" := fun he => hc' (he ▸ hTmReq)
    have h2 : c' ∉ NUMERIC_COLUMNS := fun he => hc' (hsub c' he)
    rw [hEq, getColCells_mapColumn_ne h1 astype_str, B_out c' h2]
    by_cases h : c' ∈ df.header
    · exact A_keep c' h
    · rw [A_out c' h hc']
      simp [getColCells, h]

-- ------------------------- table extensionality ----------------------------

theorem getD_eq_getElem_of_lt {l : List Cell} {i : Nat} (h : i < l.length) (d : Cell) :
    l.getD i d = l[i] := by
  rw [List.getD_eq_getElem?_getD, List.getElem?_eq_getElem h, Option.getD_some]

/-- Two rectangular tables with the same duplicate-free header, the same
number of rows and the same columns are equal. -/
theorem table_ext {df df' : DataFrame} (W : Wf df) (W' : Wf df')
    (hh : df.header = df'.header) (N : df.header.Nodup)
    (hn : df.rows.length = df'.rows.length)
    (hc : ∀ c ∈ df.header, getColCells df c = getColCells df' c) : df = df' := by
  obtain ⟨H, R⟩ := df
  obtain ⟨H', R'⟩ := df'
  simp only at hh hn hc W W' N ⊢
  subst hh
  have hR : R = R' := by
    refine List.ext_getElem hn ?_
    intro k hk hk'
    refine List.ext_getElem ?_ ?_
    · rw [W _ (List.getElem_mem hk), W' _ (List.getElem_mem hk')]
    · intro j hj hj'
      have hjH : j < H.length := by
        rw [← W _ (List.getElem_mem hk)]
        exact hj
      have hcm : H.getD j "" ∈ H := getD_mem_of_lt hjH
      have hji : j = idxOf (H.getD j "") H := eq_idxOf_of_getD N hjH rfl
      generalize hgen : H.getD j "" = c at hcm hji
      have h1 := hc c hcm
      simp only [getColCells, colIdx, hcm, if_pos] at h1
      have h2 := congrArg (fun l => l.getD k Cell.blank) h1
      clear h1 hgen
      simp only [List.getD_eq_getElem?_getD, List.getElem?_map,
        List.getElem?_eq_getElem hk, List.getElem?_eq_getElem hk'] at h2
      simp only [Option.map_some', Option.getD_some] at h2
      rw [← hji] at h2
      rw [← getD_eq_getElem_of_lt hj Cell.blank, ← getD_eq_getElem_of_lt hj' Cell.blank]
      exact h2
  rw [hR]

-- ------------------------- normalize_columns lemmas ------------------------

theorem dictGet_self_map (f : String → String) :
    ∀ (l : List String) (c : String), c ∈ l → dictGet (l.map fun x => (x, f x)) c c = f c
  | [], c, hm => absurd hm (List.not_mem_nil c)
  | h :: t, c, hm => by
    by_cases he : h = c
    · subst he
      simp [dictGet]
    · have ht : c ∈ t := by
        rcases List.mem_cons.mp hm with h1 | h1
        · exact absurd h1.symm he
        · exact h1
      simp only [List.map_cons, dictGet, he, if_false]
      exact dictGet_self_map f t c ht

/-- The rename through the self-built `new_cols` dictionary is exactly the
per-label canonicalisation. -/
theorem normalize_columns_eq (df : DataFrame) :
    normalize_columns df = ⟨df.header.map applyAlias, df.rows⟩ := by
  unfold normalize_columns
  simp only [DataFrame.mk.injEq, and_true]
  exact List.map_congr_left fun c hc => dictGet_self_map applyAlias df.header c hc

theorem dictGet_default_or_value :
    ∀ (l : List (String × String)) (k d : String),
      dictGet l k d = d ∨ dictGet l k d ∈ l.map Prod.snd
  | [], _, _ => Or.inl rfl
  | (k0, v0) :: t, k, d => by
    by_cases he : k0 = k
    · simp [dictGet, he]
    · simp only [dictGet, he, if_false, List.map_cons]
      rcases dictGet_default_or_value t k d with h | h
      · exact Or.inl h
      · exact Or.inr (List.mem_cons_of_mem _ h)

theorem applyAlias_values_fixed :
    ∀ v ∈ mapping_candidates.map Prod.snd, applyAlias v = v := by decide

theorem applyAlias_idem (c : String) : applyAlias (applyAlias c) = applyAlias c := by
  rcases dictGet_default_or_value mapping_candidates (pyLower (pyStrip c)) c with h | h
  · have h' : applyAlias c = c := h
    rw [h']
    exact h'
  · exact applyAlias_values_fixed _ h

theorem applyAlias_canonical : ∀ c ∈ REQUIRED_COLUMNS, applyAlias c = c := by decide

-- ------------------------- string order lemmas -----------------------------

theorem pyStrLt_asymm {a b : String} (h : pyStrLt a b) : ¬ pyStrLt b a := by
  unfold pyStrLt at *
  exact @IsAsymm.asymm (List Char) (List.Lex (· < ·)) _ _ _ h

theorem pyStrLt_trans {a b c : String} (h1 : pyStrLt a b) (h2 : pyStrLt b c) :
    pyStrLt a c := by
  unfold pyStrLt at *
  exact @IsTrans.trans (List Char) (List.Lex (· < ·)) _ _ _ _ h1 h2

theorem pyStrLt_trichot (a b : String) : pyStrLt a b ∨ a = b ∨ pyStrLt b a := by
  rcases @IsTrichotomous.trichotomous (List Char) (List.Lex (· < ·)) _ a.data b.data
    with h | h | h
  · exact Or.inl h
  · refine Or.inr (Or.inl ?_)
    cases a
    cases b
    simp only at h
    rw [h]
  · exact Or.inr (Or.inr h)

theorem pyStrLE_total (a b : String) : pyStrLE a b ∨ pyStrLE b a := by
  by_cases h : pyStrLt b a
  · exact Or.inr (pyStrLt_asymm h)
  · exact Or.inl h

theorem pyStrLE_trans {a b c : String} (h1 : pyStrLE a b) (h2 : pyStrLE b c) :
    pyStrLE a c := by
  intro hca
  rcases pyStrLt_trichot a b with h | h | h
  · exact h2 (pyStrLt_trans hca h)
  · subst h
    exact h2 hca
  · exact h1 h

-- ------------------------- sort-relation instances -------------------------

instance (ti ni : Nat) : IsTotal (List Cell) (rowLE ti ni) where
  total r r' := by
    unfold rowLE
    rcases lt_trichotomy (cellNum (cellAt r ti)) (cellNum (cellAt r' ti)) with h | h | h
    · exact Or.inr (Or.inl h)
    · rcases pyStrLE_total (cellToString (cellAt r ni)) (cellToString (cellAt r' ni)) with hs | hs
      · exact Or.inl (Or.inr ⟨h, hs⟩)
      · exact Or.inr (Or.inr ⟨h.symm, hs⟩)
    · exact Or.inl (Or.inl h)

instance (ti ni : Nat) : IsTrans (List Cell) (rowLE ti ni) where
  trans a b c hab hbc := by
    unfold rowLE at *
    rcases hab with h1 | ⟨h1, hs1⟩ <;> rcases hbc with h2 | ⟨h2, hs2⟩
    · exact Or.inl (lt_trans h2 h1)
    · exact Or.inl (h2 ▸ h1)
    · exact Or.inl (h1 ▸ h2)
    · exact Or.inr ⟨h1.trans h2, pyStrLE_trans hs1 hs2⟩

instance (ti : Nat) : IsTotal (List Cell) (totalDescRel ti) where
  total r r' := by
    unfold totalDescRel
    exact le_total _ _

instance (ti : Nat) : IsTrans (List Cell) (totalDescRel ti) where
  trans a b c hab hbc := by
    unfold totalDescRel at *
    exact le_trans hbc hab

-- ------------------------- dense rank lemmas -------------------------------

theorem denseRankDesc_max {vals : List Int} {v : Int}
    (hmax : ∀ w ∈ vals, w ≤ v) : denseRankDesc vals v = 1 := by
  unfold denseRankDesc
  have h : vals.toFinset.filter (fun w => v < w) = ∅ := by
    refine Finset.filter_eq_empty_iff.mpr fun {w} hw => ?_
    have := hmax w (List.mem_toFinset.mp hw)
    omega
  rw [h]
  rfl

theorem denseRankDesc_step {vals : List Int} {v w : Int} (hv : v ∈ vals) (hw : w < v)
    (hnone : ∀ u ∈ vals, ¬ (w < u ∧ u < v)) :
    denseRankDesc vals w = denseRankDesc vals v + 1 := by
  unfold denseRankDesc
  have hset : vals.toFinset.filter (fun u => w < u)
      = insert v (vals.toFinset.filter (fun u => v < u)) := by
    ext u
    simp only [Finset.mem_filter, Finset.mem_insert, List.mem_toFinset]
    constructor
    · rintro ⟨hu, hwu⟩
      by_cases huv : u = v
      · exact Or.inl huv
      · refine Or.inr ⟨hu, ?_⟩
        have := hnone u hu
        have : ¬ u < v := fun hlt => this ⟨hwu, hlt⟩
        omega
    · rintro (rfl | ⟨hu, hvu⟩)
      · exact ⟨hv, hw⟩
      · exact ⟨hu, lt_trans hw hvu⟩
  have hnotmem : v ∉ vals.toFinset.filter (fun u => v < u) := by
    simp only [Finset.mem_filter, List.mem_toFinset]
    rintro ⟨_, hlt⟩
    exact lt_irrefl v hlt
  rw [hset, Finset.card_insert_of_not_mem hnotmem]
  omega

/-- In a list of totals sorted descending, consecutive strictly decreasing
entries have dense ranks exactly one apart. -/
theorem dense_rank_chain_step {ts : List Int}
    (hsort : ∀ (i j : Nat) (hi : i < ts.length) (hj : j < ts.length), i < j →
      ts.get ⟨j, hj⟩ ≤ ts.get ⟨i, hi⟩)
    (i : Nat) (hi : i < ts.length) (hj : i + 1 < ts.length)
    (hlt : ts.get ⟨i + 1, hj⟩ < ts.get ⟨i, hi⟩) :
    denseRankDesc ts (ts.get ⟨i + 1, hj⟩) = denseRankDesc ts (ts.get ⟨i, hi⟩) + 1 := by
  refine denseRankDesc_step (ts.get_mem i hi) hlt ?_
  rintro u hu ⟨h1, h2⟩
  obtain ⟨⟨m, hm⟩, rfl⟩ := List.mem_iff_get.mp hu
  rcases lt_trichotomy m i with hmi | rfl | hmi
  · exact absurd (hsort m i hm hi hmi) (not_le.mpr h2)
  · exact lt_irrefl _ h2
  · rcases Nat.eq_or_lt_of_le hmi with he | hlt2
    · subst he
      exact lt_irrefl _ h1
    · exact absurd (hsort (i + 1) m hj hm hlt2) (not_le.mpr h1)

-- ------------------------- deriveTotals lemmas -----------------------------

theorem deriveTotals_header {df : DataFrame} (hT : "Total_points" ∈ df.header) :
    (deriveTotals df).header = df.header := by
  unfold deriveTotals
  split
  · rw [setColumnBy_header, if_pos hT]
  · rfl

theorem deriveTotals_wf {df : DataFrame} (W : Wf df) : Wf (deriveTotals df) := by
  unfold deriveTotals
  split
  · exact setColumnBy_wf W _ _
  · exact W

theorem deriveTotals_rows_length (df : DataFrame) :
    (deriveTotals df).rows.length = df.rows.length := by
  unfold deriveTotals
  split
  · exact setColumnBy_rows_length df _ _
  · rfl

theorem deriveTotals_nodup {df : DataFrame} (N : df.header.Nodup) :
    (deriveTotals df).header.Nodup := by
  unfold deriveTotals
  split
  · exact setColumnBy_nodup N _ _
  · exact N

theorem getColCells_deriveTotals_ne {df : DataFrame} (W : Wf df) {c' : String}
    (hne : c' ≠ "Total_points") :
    getColCells (deriveTotals df) c' = getColCells df c' := by
  unfold deriveTotals
  split
  · exact getColCells_setColumnBy_ne W hne _
  · rfl

theorem deriveTotals_totals_of_all_zero {df : DataFrame} (W : Wf df)
    (h : totals_all_zero df = true) :
    getColCells (deriveTotals df) "Total_points"
      = df.rows.map (fun r => Cell.num (rowDerivedTotal df r)) := by
  unfold deriveTotals
  rw [if_pos h]
  exact getColCells_setColumnBy_self W _ _

theorem deriveTotals_of_not_all_zero {df : DataFrame} (h : totals_all_zero df = false) :
    deriveTotals df = df := by
  unfold deriveTotals
  rw [h]
  rfl

theorem deriveTotals_normalized {df : DataFrame} (h : Normalized df) :
    Normalized (deriveTotals df) := by
  obtain ⟨W, N, hreq, hnum, hname⟩ := h
  have hT : "Total_points" ∈ df.header := hreq _ (by decide)
  refine ⟨deriveTotals_wf W, by rw [deriveTotals_header hT]; exact N, ?_, ?_, ?_⟩
  · intro c hc
    rw [deriveTotals_header hT]
    exact hreq c hc
  · intro c hc x hx
    by_cases hcT : c = "Total_points"
    · subst hcT
      by_cases hz : totals_all_zero df
      · rw [deriveTotals_totals_of_all_zero W hz] at hx
        rcases List.mem_map.mp hx with ⟨r, _, rfl⟩
        rfl
      · rw [deriveTotals_of_not_all_zero (Bool.not_eq_true _ ▸ hz)] at hx
        exact hnum _ hc x hx
    · rw [getColCells_deriveTotals_ne W hcT] at hx
      exact hnum c hc x hx
  · intro x hx
    rw [getColCells_deriveTotals_ne W (by decide)] at hx
    exact hname x hx

-- ------------------------- addRank lemmas ----------------------------------

theorem addRank_wf {df : DataFrame} (W : Wf df) : Wf (addRank df) :=
  setColumnBy_wf W _ _

theorem addRank_rows_length (df : DataFrame) :
    (addRank df).rows.length = df.rows.length :=
  setColumnBy_rows_length df _ _

theorem addRank_nodup {df : DataFrame} (N : df.header.Nodup) :
    (addRank df).header.Nodup :=
  setColumnBy_nodup N _ _

theorem getColCells_addRank_ne {df : DataFrame} (W : Wf df) {c' : String}
    (hne : c' ≠ "Rank") : getColCells (addRank df) c' = getColCells df c' :=
  getColCells_setColumnBy_ne W hne _

theorem colIdx_addRank_of_mem {df : DataFrame} {c' : String} (h : c' ∈ df.header) :
    colIdx (addRank df) c' = colIdx df c' :=
  colIdx_setColumnBy_of_mem h _ _

theorem mem_addRank_header {df : DataFrame} {c' : String} (h : c' ∈ df.header) :
    c' ∈ (addRank df).header :=
  mem_setColumnBy_header.mpr (Or.inl h)

theorem addRank_rank_cell {df : DataFrame} (W : Wf df)
    (hT : "Total_points" ∈ df.header) {r' : List Cell} (h : r' ∈ (addRank df).rows) :
    cellAt r' (colIdx (addRank df) "Rank")
      = Cell.num (denseRankDesc (totalsInts df)
          (cellNum (cellAt r' (colIdx df "Total_points")))) := by
  unfold addRank at h ⊢
  obtain ⟨r, _, hcell, hother⟩ := setColumnBy_rows_mem W h
  rw [hcell, hother "Total_points" (by decide) hT]

-- ------------------------- sortTable and selectColumns lemmas --------------

theorem sortTable_header (df : DataFrame) : (sortTable df).header = df.header := rfl

theorem sortTable_perm (df : DataFrame) : (sortTable df).rows.Perm df.rows :=
  List.perm_insertionSort _ _

theorem sortTable_sorted (df : DataFrame) :
    List.Sorted (rowLE (colIdx df "Total_points") (colIdx df "Team_Name"))
      (sortTable df).rows :=
  List.sorted_insertionSort _ _

theorem sortTable_wf {df : DataFrame} (W : Wf df) : Wf (sortTable df) := fun r hr =>
  W r ((sortTable_perm df).mem_iff.mp hr)

theorem selectColumns_header (df : DataFrame) :
    (selectColumns df).header = ORDERED_COLS := rfl

theorem selectColumns_rows_length (df : DataFrame) :
    (selectColumns df).rows.length = df.rows.length :=
  List.length_map _ _

theorem proj_outRank (df : DataFrame) (r : List Cell) :
    outRank (ORDERED_COLS.map (fun c => cellAt r (colIdx df c)))
      = cellNum (cellAt r (colIdx df "Rank")) := rfl

theorem proj_outName (df : DataFrame) (r : List Cell) :
    outName (ORDERED_COLS.map (fun c => cellAt r (colIdx df c)))
      = cellToString (cellAt r (colIdx df "Team_Name")) := rfl

theorem proj_outTotal (df : DataFrame) (r : List Cell) :
    outTotal (ORDERED_COLS.map (fun c => cellAt r (colIdx df c)))
      = cellNum (cellAt r (colIdx df "Total_points")) := rfl

theorem denseRankDesc_perm {l l' : List Int} (h : l.Perm l') (v : Int) :
    denseRankDesc l v = denseRankDesc l' v := by
  unfold denseRankDesc
  rw [List.toFinset_eq_of_perm _ _ h]

-- ------------------------- master facts about the final table --------------

/-- The final table of `compute_totals_and_rank` on a normalized table: rows
are ordered by the presentation key, every row's rank entry is the descending
dense rank of its total among the output totals, and the row count is
preserved. -/
theorem output_master (df : DataFrame) (h : Normalized df) :
    List.Pairwise outKeyLE (compute_totals_and_rank df).rows ∧
    (∀ r ∈ (compute_totals_and_rank df).rows,
      outRank r
        = (denseRankDesc ((compute_totals_and_rank df).rows.map outTotal)
            (outTotal r) : Int)) ∧
    (compute_totals_and_rank df).rows.length = df.rows.length := by
  obtain ⟨W, N, hreq, hnum, hname⟩ := h
  have hT : "Total_points" ∈ df.header := hreq _ (by decide)
  have W1 : Wf (deriveTotals df) := deriveTotals_wf W
  have hdr1 : (deriveTotals df).header = df.header := deriveTotals_header hT
  have hT1 : "Total_points" ∈ (deriveTotals df).header := by rw [hdr1]; exact hT
  have W2 : Wf (addRank (deriveTotals df)) := addRank_wf W1
  have hT2 : "Total_points" ∈ (addRank (deriveTotals df)).header := mem_addRank_header hT1
  have hidxT : colIdx (addRank (deriveTotals df)) "Total_points"
      = colIdx (deriveTotals df) "Total_points" := colIdx_addRank_of_mem hT1
  have hrows : (compute_totals_and_rank df).rows
      = (sortTable (addRank (deriveTotals df))).rows.map
          (fun r => ORDERED_COLS.map
            (fun c => cellAt r (colIdx (addRank (deriveTotals df)) c))) := rfl
  have heq : (addRank (deriveTotals df)).rows.map
        (fun r => cellNum (cellAt r (colIdx (deriveTotals df) "Total_points")))
      = totalsInts (deriveTotals df) := by
    unfold totalsInts
    rw [← getColCells_addRank_ne W1 (show "Total_points" ≠ "Rank" by decide)]
    simp only [getColCells, hT2, if_pos, List.map_map, hidxT]
    rfl
  have htl : ((compute_totals_and_rank df).rows.map outTotal).Perm
      (totalsInts (deriveTotals df)) := by
    rw [hrows, List.map_map]
    have hfun : (outTotal ∘ fun r => ORDERED_COLS.map
          (fun c => cellAt r (colIdx (addRank (deriveTotals df)) c)))
        = fun r => cellNum (cellAt r (colIdx (deriveTotals df) "Total_points")) := by
      funext r
      show outTotal (ORDERED_COLS.map _) = _
      rw [proj_outTotal, hidxT]
    rw [hfun, ← heq]
    exact (sortTable_perm (addRank (deriveTotals df))).map _
  have hrank : ∀ r ∈ (compute_totals_and_rank df).rows,
      outRank r = (denseRankDesc (totalsInts (deriveTotals df)) (outTotal r) : Int) := by
    intro o ho
    rw [hrows] at ho
    rcases List.mem_map.mp ho with ⟨r, hr, rfl⟩
    have hrmem : r ∈ (addRank (deriveTotals df)).rows :=
      (sortTable_perm _).mem_iff.mp hr
    have hcell := addRank_rank_cell W1 hT1 hrmem
    rw [proj_outRank, proj_outTotal, hidxT, hcell]
    rfl
  refine ⟨?_, ?_, ?_⟩
  · rw [hrows]
    refine List.Pairwise.map _ ?_ (sortTable_sorted (addRank (deriveTotals df)))
    intro a b hab
    unfold outKeyLE
    rw [proj_outTotal, proj_outTotal, proj_outName, proj_outName]
    exact hab
  · intro r hr
    rw [hrank r hr, denseRankDesc_perm htl]
  · rw [hrows, List.length_map, (sortTable_perm _).length_eq, addRank_rows_length,
      deriveTotals_rows_length]

-- ------------------------- remaining small helpers -------------------------

theorem foldl_fillMissing_rows_length :
    ∀ (cs : List String) (df : DataFrame),
      (cs.foldl fillMissing df).rows.length = df.rows.length
  | [], _ => rfl
  | c :: rest, df => by
    rw [List.foldl_cons, foldl_fillMissing_rows_length rest, fillMissing_rows_length]

theorem foldl_mapColumn_rows_length (g : Cell → Cell) :
    ∀ (cs : List String) (df : DataFrame),
      (cs.foldl (fun d c => mapColumn d c g) df).rows.length = df.rows.length
  | [], _ => rfl
  | c :: rest, df => by
    rw [List.foldl_cons, foldl_mapColumn_rows_length g rest, mapColumn_rows_length]

theorem ensure_rows_length (df : DataFrame) :
    (ensure_required_columns df).rows.length = df.rows.length := by
  unfold ensure_required_columns
  rw [mapColumn_rows_length, foldl_mapColumn_rows_length, foldl_fillMissing_rows_length]

theorem normalize_rows (df : DataFrame) : (normalize_columns df).rows = df.rows := by
  rw [normalize_columns_eq]

theorem getD_map_of_lt (f : String → String) {l : List String} {i : Nat}
    (h : i < l.length) (d : String) : (l.map f).getD i d = f (l.getD i d) := by
  rw [List.getD_eq_getElem?_getD, List.getD_eq_getElem?_getD, List.getElem?_map,
    List.getElem?_eq_getElem h]
  rfl

theorem two_le_count_of_getD :
    ∀ {l : List String} {i j : Nat} {k : String}, i < j → j < l.length →
      l.getD i "" = k → l.getD j "" = k → 2 ≤ l.count k
  | [], _, j, _, _, hj, _, _ => absurd hj (Nat.not_lt_zero j)
  | h :: t, 0, j, k, hij, hj, hik, hjk => by
    obtain ⟨j0, rfl⟩ : ∃ j0, j = j0 + 1 := ⟨j - 1, by omega⟩
    have hj0 : j0 < t.length := by simpa [Nat.succ_lt_succ_iff] using hj
    have hkt : k ∈ t := by
      have : t.getD j0 "" = k := by simpa [List.getD_cons_succ] using hjk
      exact this ▸ getD_mem_of_lt hj0
    have h1 : 0 < t.count k := List.count_pos_iff.mpr hkt
    have h2 : h = k := by simpa [List.getD_cons_zero] using hik
    rw [List.count_cons, if_pos (by simpa using h2)]
    omega
  | h :: t, i0 + 1, j, k, hij, hj, hik, hjk => by
    obtain ⟨j0, rfl⟩ : ∃ j0, j = j0 + 1 := ⟨j - 1, by omega⟩
    have hj0 : j0 < t.length := by simpa [Nat.succ_lt_succ_iff] using hj
    have hrec := @two_le_count_of_getD t i0 j0 k (by omega) hj0
      (by simpa [List.getD_cons_succ] using hik)
      (by simpa [List.getD_cons_succ] using hjk)
    rw [List.count_cons]
    omega

theorem to_numeric_fill0_idem (x : Cell) :
    to_numeric_fill0 (to_numeric_fill0 x) = to_numeric_fill0 x := rfl

theorem astype_str_idem (x : Cell) : astype_str (astype_str x) = astype_str x := rfl

-- ===========================================================================
-- Claim theorems
-- ===========================================================================

/-- C1: for every normalized table, the totals-and-ranking operation (whose
first phase is `deriveTotals`) replaces the totals column with the per-row
sum of the four game scores plus the bonus exactly when every entry of the
totals column is zero; when some entry is nonzero the table is left entirely
unchanged by the derivation phase, including rows whose own total is 0. -/
theorem totals_all_or_nothing (df : DataFrame) (h : Normalized df) :
    compute_totals_and_rank df
        = selectColumns (sortTable (addRank (deriveTotals df))) ∧
    (totals_all_zero df = true →
      getColCells (deriveTotals df) "Total_points"
        = df.rows.map (fun r => Cell.num (rowDerivedTotal df r))) ∧
    (totals_all_zero df = false → deriveTotals df = df) :=
  ⟨rfl, fun hz => deriveTotals_totals_of_all_zero h.1 hz,
    fun hz => deriveTotals_of_not_all_zero hz⟩

/-- Witness for C1: on the all-zero table the first row (scores 10, 20, 5, 0,
bonus 5) derives total 40; on the mixed table nothing changes and the second
row's total stays 0 although its scores sum to 15. -/
theorem totals_all_or_nothing_witness :
    getColCells (deriveTotals exampleAllZeroTotals) "Total_points"
        = exampleAllZeroTotals.rows.map
            (fun r => Cell.num (rowDerivedTotal exampleAllZeroTotals r)) ∧
    getColCells (deriveTotals exampleAllZeroTotals) "Total_points"
        = [Cell.num 40, Cell.num 10] ∧
    deriveTotals exampleMixedTotals = exampleMixedTotals ∧
    getColCells (deriveTotals exampleMixedTotals) "Total_points"
        = [Cell.num 50, Cell.num 0] :=
  ⟨(totals_all_or_nothing exampleAllZeroTotals (by decide)).2.1 (by decide),
   by decide,
   (totals_all_or_nothing exampleMixedTotals (by decide)).2.2 (by decide),
   by decide⟩

/-- C4: column renaming maps every header label to the result of looking up
its trimmed, lower-cased form in the fixed alias table, keeping the label on
a miss, and leaves the rows untouched. -/
theorem normalize_columns_spec (df : DataFrame) :
    (normalize_columns df).rows = df.rows ∧
    (normalize_columns df).header.length = df.header.length ∧
    (∀ i, i < df.header.length →
      (normalize_columns df).header.getD i ""
        = dictGet mapping_candidates (pyLower (pyStrip (df.header.getD i "")))
            (df.header.getD i "")) := by
  rw [normalize_columns_eq]
  refine ⟨rfl, by simp, ?_⟩
  intro i hi
  show (df.header.map applyAlias).getD i "" = _
  rw [getD_map_of_lt applyAlias hi]
  rfl

/-- Witness for C4: on the raw example the aliased headers become canonical
("Team Name" to the name column, " GAME1" to the first game) and the
unrecognized "Notes" header passes through unchanged. -/
theorem normalize_columns_spec_witness :
    0 < exampleRaw.header.length ∧
    (normalize_columns exampleRaw).header.getD 0 ""
      = dictGet mapping_candidates (pyLower (pyStrip (exampleRaw.header.getD 0 "")))
          (exampleRaw.header.getD 0 "") ∧
    (normalize_columns exampleRaw).header = ["Team_Name", "Game_1", "Notes"] :=
  ⟨by decide, (normalize_columns_spec exampleRaw).2.2 0 (by decide), by decide⟩

/-- C10: the full pipeline (renaming, required-column filling and coercion,
totals and ranking) preserves the number of rows. -/
theorem pipeline_row_count (df : DataFrame) :
    (processTable df).rows.length = df.rows.length := by
  unfold processTable compute_totals_and_rank
  rw [selectColumns_rows_length, (sortTable_perm _).length_eq, addRank_rows_length,
    deriveTotals_rows_length, ensure_rows_length, normalize_rows]

/-- C7 counterexample: the substituted fallback table has no rank column, so
it does not have the structure of a ranked table. -/
theorem fallback_no_rank_column :
    ¬ ("Rank" ∈ (loadData (Except.error "boom")).1.header) := by decide

/-- C7 amended: whenever the fetch-and-process step fails, the system
substitutes the built-in placeholder of exactly 8 records named "Team_1"
through "Team_8" with every numeric field 0 and surfaces the failure cause
separately from the table; the placeholder has the 7 canonical columns but no
rank column, because it is not passed through the ranking pipeline. -/
theorem fallback_placeholder_spec (e : String) :
    loadData (Except.error e)
        = (load_base_data, some ("Could not load Sheet: " ++ e)) ∧
    load_base_data.header = REQUIRED_COLUMNS ∧
    load_base_data.rows.length = 8 ∧
    getColCells load_base_data "Team_Name"
      = (List.range 8).map (fun i => Cell.str ("Team_" ++ toString (i + 1))) ∧
    (NUMERIC_COLUMNS.all (fun c =>
      (getColCells load_base_data c).all (fun x => x == Cell.num 0))) = true ∧
    ¬ ("Rank" ∈ load_base_data.header) :=
  ⟨rfl, rfl, rfl, by decide, by decide, by decide⟩

/-- Witness for C7 at a concrete failure reason. -/
theorem fallback_placeholder_spec_witness :
    loadData (Except.error "boom")
        = (load_base_data, some "Could not load Sheet: boom") ∧
    load_base_data.rows.length = 8 :=
  ⟨(fallback_placeholder_spec "boom").1, (fallback_placeholder_spec "boom").2.2.1⟩

/-- C8 counterexample: with both "Team" and "Team_Name" present, renaming
produces two columns labelled "Team_Name" (not a single column), and the
earlier column's values are not overwritten. -/
theorem duplicate_alias_counterexample :
    (normalize_columns exampleDupAlias).header = ["Team_Name", "Team_Name"] ∧
    (normalize_columns exampleDupAlias).header.count "Team_Name" = 2 ∧
    (normalize_columns exampleDupAlias).rows = [[Cell.str "A", Cell.str "B"]] :=
  ⟨by decide, by decide, by decide⟩

/-- C8 amended: when two distinct input columns alias to the same canonical
name, the renaming step keeps both columns: both positions carry the canonical
label afterwards (so the label occurs at least twice) and every row is left
unchanged, with each column retaining its own values; neither column
overwrites the other. -/
theorem duplicate_alias_both_kept (df : DataFrame) {i j : Nat} {k : String}
    (hij : i < j) (hj : j < df.header.length)
    (hik : applyAlias (df.header.getD i "") = k)
    (hjk : applyAlias (df.header.getD j "") = k) :
    (normalize_columns df).rows = df.rows ∧
    (normalize_columns df).header.getD i "" = k ∧
    (normalize_columns df).header.getD j "" = k ∧
    2 ≤ (normalize_columns df).header.count k := by
  have hi : i < df.header.length := lt_trans hij hj
  rw [normalize_columns_eq]
  refine ⟨rfl, ?_, ?_, ?_⟩
  · show (df.header.map applyAlias).getD i "" = k
    rw [getD_map_of_lt applyAlias hi, hik]
  · show (df.header.map applyAlias).getD j "" = k
    rw [getD_map_of_lt applyAlias hj, hjk]
  · show 2 ≤ (df.header.map applyAlias).count k
    refine two_le_count_of_getD hij (by simpa using hj) ?_ ?_
    · rw [getD_map_of_lt applyAlias hi, hik]
    · rw [getD_map_of_lt applyAlias hj, hjk]

/-- Witness for C8 at the concrete duplicate table. -/
theorem duplicate_alias_both_kept_witness :
    (normalize_columns exampleDupAlias).rows = exampleDupAlias.rows ∧
    (normalize_columns exampleDupAlias).header.getD 0 "" = "Team_Name" ∧
    (normalize_columns exampleDupAlias).header.getD 1 "" = "Team_Name" ∧
    2 ≤ (normalize_columns exampleDupAlias).header.count "Team_Name" :=
  duplicate_alias_both_kept exampleDupAlias (by decide) (by decide) (by decide) (by decide)

/-- C5: after `ensure_required_columns` on a rectangular table with a
duplicate-free header, all 7 canonical columns exist; every cell of the 6
numeric columns is a number (a cell of an absent column is 0, a present cell
is its parsed value with parse failures defaulting to 0 — negative values
allowed); and every cell of the name column is a string. -/
theorem ensure_required_columns_spec (df : DataFrame) (W : Wf df)
    (N : df.header.Nodup) :
    (∀ c ∈ REQUIRED_COLUMNS, c ∈ (ensure_required_columns df).header) ∧
    (∀ c ∈ NUMERIC_COLUMNS, ∀ x ∈ getColCells (ensure_required_columns df) c,
      x.isNum = true) ∧
    (∀ c ∈ NUMERIC_COLUMNS, c ∉ df.header →
      getColCells (ensure_required_columns df) c
        = List.replicate df.rows.length (Cell.num 0)) ∧
    (∀ c ∈ NUMERIC_COLUMNS, c ∈ df.header →
      getColCells (ensure_required_columns df) c
        = (getColCells df c).map to_numeric_fill0) ∧
    (∀ x ∈ getColCells (ensure_required_columns df) "Team_Name", x.isStr = true) := by
  obtain ⟨E_hdr, E_wf, E_nodup, E_len, E_num, E_name, E_pass⟩ := ensure_spec df W N
  refine ⟨?_, ?_, ?_, ?_, ?_⟩
  · intro c hc
    rw [E_hdr]
    by_cases h : c ∈ df.header
    · exact List.mem_append_left _ h
    · exact List.mem_append_right _ (List.mem_filter.mpr ⟨hc, by simp [h]⟩)
  · intro c hc x hx
    rw [E_num c hc] at hx
    rcases List.mem_map.mp hx with ⟨y, _, rfl⟩
    rfl
  · intro c hc habs
    rw [E_num c hc, if_neg habs, List.map_replicate]
    rfl
  · intro c hc hpres
    rw [E_num c hc, if_pos hpres]
  · intro x hx
    rw [E_name] at hx
    rcases List.mem_map.mp hx with ⟨y, _, rfl⟩
    rfl

/-- Witness for C5 on the normalized raw example: numeric cells are numbers,
"-5" parses to a negative number, "junk" and a blank coerce to 0, the missing
numeric columns are zero-filled, and the numeric name cell 3 becomes the
string "3". -/
theorem ensure_required_columns_spec_witness :
    Wf (normalize_columns exampleRaw) ∧
    (∀ c ∈ NUMERIC_COLUMNS,
      ∀ x ∈ getColCells (ensure_required_columns (normalize_columns exampleRaw)) c,
        x.isNum = true) ∧
    getColCells (ensure_required_columns (normalize_columns exampleRaw)) "Game_1"
        = [Cell.num (-5), Cell.num 0] ∧
    getColCells (ensure_required_columns (normalize_columns exampleRaw)) "Game_2"
        = [Cell.num 0, Cell.num 0] ∧
    getColCells (ensure_required_columns (normalize_columns exampleRaw)) "Team_Name"
        = [Cell.str "x", Cell.str "3"] :=
  ⟨by decide,
   (ensure_required_columns_spec (normalize_columns exampleRaw) (by decide) (by decide)).2.1,
   by decide, by decide, by decide⟩

/-- C3: the rows of the final table are ordered by total descending, and any
two rows with equal totals appear in ascending code-point order of their name
strings. -/
theorem output_ordering_spec (df : DataFrame) (h : Normalized df) :
    List.Pairwise
      (fun r r' => outTotal r' < outTotal r ∨
        (outTotal r = outTotal r' ∧ pyStrLE (outName r) (outName r')))
      (compute_totals_and_rank df).rows :=
  (output_master df h).1

/-- Witness for C3: on the tie table the two total-80 rows come out with
"Alpha" listed before "Bravo". -/
theorem output_ordering_spec_witness :
    Normalized exampleNormalized ∧
    List.Pairwise
      (fun r r' => outTotal r' < outTotal r ∨
        (outTotal r = outTotal r' ∧ pyStrLE (outName r) (outName r')))
      (compute_totals_and_rank exampleNormalized).rows ∧
    (compute_totals_and_rank exampleNormalized).rows.map outName
        = ["A", "Alpha", "Bravo", "D"] ∧
    (compute_totals_and_rank exampleNormalized).rows.map outTotal
        = [100, 80, 80, 50] :=
  ⟨by decide, output_ordering_spec exampleNormalized (by decide), by decide, by decide⟩

/-- C2: in the final table, ranks are descending dense ranks of the totals:
rows with equal totals share a rank, every row whose total is maximal has
rank 1, and along the (sorted) output each strictly lower total increases the
rank by exactly one. -/
theorem dense_rank_spec (df : DataFrame) (h : Normalized df) :
    (∀ r ∈ (compute_totals_and_rank df).rows,
      ∀ r' ∈ (compute_totals_and_rank df).rows,
        outTotal r = outTotal r' → outRank r = outRank r') ∧
    (∀ r ∈ (compute_totals_and_rank df).rows,
      (∀ r' ∈ (compute_totals_and_rank df).rows, outTotal r' ≤ outTotal r) →
        outRank r = 1) ∧
    List.Chain'
      (fun r r' =>
        (outTotal r' = outTotal r → outRank r' = outRank r) ∧
        (outTotal r' < outTotal r → outRank r' = outRank r + 1))
      (compute_totals_and_rank df).rows := by
  obtain ⟨hpair, hrank, _⟩ := output_master df h
  refine ⟨?_, ?_, ?_⟩
  · intro r hr r' hr' heq
    rw [hrank r hr, hrank r' hr', heq]
  · intro r hr hmax
    rw [hrank r hr]
    have h1 : denseRankDesc ((compute_totals_and_rank df).rows.map outTotal)
        (outTotal r) = 1 := by
      refine denseRankDesc_max ?_
      intro w hw
      rcases List.mem_map.mp hw with ⟨r', hr', rfl⟩
      exact hmax r' hr'
    rw [h1]
    rfl
  · have hsort_get : ∀ (i j : Nat)
        (hi : i < ((compute_totals_and_rank df).rows.map outTotal).length)
        (hj : j < ((compute_totals_and_rank df).rows.map outTotal).length), i < j →
        ((compute_totals_and_rank df).rows.map outTotal).get ⟨j, hj⟩
          ≤ ((compute_totals_and_rank df).rows.map outTotal).get ⟨i, hi⟩ := by
      intro i j hi hj hij
      rw [List.get_map, List.get_map]
      have hp := List.pairwise_iff_get.mp hpair ⟨i, by simpa using hi⟩
        ⟨j, by simpa using hj⟩ (by simpa using hij)
      unfold outKeyLE at hp
      rcases hp with hlt | ⟨heq2, _⟩
      · exact le_of_lt hlt
      · exact le_of_eq heq2.symm
    rw [List.chain'_iff_get]
    intro i hilen
    have hi : i < (compute_totals_and_rank df).rows.length := by omega
    have hi1 : i + 1 < (compute_totals_and_rank df).rows.length := by omega
    constructor
    · intro heq
      rw [hrank _ (List.get_mem _ _ _), hrank _ (List.get_mem _ _ _), heq]
    · intro hlt
      rw [hrank _ (List.get_mem _ _ _), hrank _ (List.get_mem _ _ _)]
      have hts_i : ((compute_totals_and_rank df).rows.map outTotal).get
            ⟨i, by simpa using hi⟩
          = outTotal ((compute_totals_and_rank df).rows.get ⟨i, hi⟩) := by
        rw [List.get_map]
      have hts_i1 : ((compute_totals_and_rank df).rows.map outTotal).get
            ⟨i + 1, by simpa using hi1⟩
          = outTotal ((compute_totals_and_rank df).rows.get ⟨i + 1, hi1⟩) := by
        rw [List.get_map]
      have hstep := dense_rank_chain_step hsort_get i (by simpa using hi)
        (by simpa using hi1) (by rw [hts_i1, hts_i]; exact hlt)
      rw [hts_i1, hts_i] at hstep
      rw [hstep]
      push_cast
      ring

/-- Witness for C2: totals [100, 80, 80, 50] come out ranked [1, 2, 2, 3]. -/
theorem dense_rank_spec_witness :
    Normalized exampleNormalized ∧
    List.Chain'
      (fun r r' =>
        (outTotal r' = outTotal r → outRank r' = outRank r) ∧
        (outTotal r' < outTotal r → outRank r' = outRank r + 1))
      (compute_totals_and_rank exampleNormalized).rows ∧
    (compute_totals_and_rank exampleNormalized).rows.map outRank = [1, 2, 2, 3] ∧
    (compute_totals_and_rank exampleNormalized).rows.map outTotal = [100, 80, 80, 50] :=
  ⟨by decide, (dense_rank_spec exampleNormalized (by decide)).2.2, by decide, by decide⟩

/-- C9: the leading-team statistic is the name of the top-ranked (first,
rank-1) row when the final table is non-empty with a positive maximum total,
and is the sentinel "TBD" when the table is empty or no total is positive;
an empty input yields a zero-row output and team count 0. -/
theorem leading_team_spec (df : DataFrame) (h : Normalized df) :
    ((compute_totals_and_rank df).rows ≠ [] →
      0 < maxTotal (compute_totals_and_rank df) →
      leadingTeam (compute_totals_and_rank df)
          = outName ((compute_totals_and_rank df).rows.headD []) ∧
      outRank ((compute_totals_and_rank df).rows.headD []) = 1) ∧
    ((compute_totals_and_rank df).rows = [] ∨
        maxTotal (compute_totals_and_rank df) ≤ 0 →
      leadingTeam (compute_totals_and_rank df) = "TBD") ∧
    (df.rows = [] →
      (compute_totals_and_rank df).rows.length = 0 ∧
      teamCount (compute_totals_and_rank df) = 0) := by
  obtain ⟨hpair, hrank, hlen⟩ := output_master df h
  refine ⟨?_, ?_, ?_⟩
  · intro hne hpos
    have hTidx : colIdx (compute_totals_and_rank df) "Total_points" = 7 := rfl
    have hNidx : colIdx (compute_totals_and_rank df) "Team_Name" = 1 := rfl
    have hsorted : List.Sorted
        (totalDescRel (colIdx (compute_totals_and_rank df) "Total_points"))
        (compute_totals_and_rank df).rows := by
      rw [hTidx]
      refine hpair.imp ?_
      intro a b hab
      unfold outKeyLE at hab
      show cellNum (cellAt b 7) ≤ cellNum (cellAt a 7)
      rcases hab with hlt | ⟨heq, _⟩
      · exact le_of_lt hlt
      · exact le_of_eq heq.symm
    have hins : List.insertionSort
        (totalDescRel (colIdx (compute_totals_and_rank df) "Total_points"))
        (compute_totals_and_rank df).rows = (compute_totals_and_rank df).rows :=
      List.Sorted.insertionSort_eq hsorted
    have hlen0 : (compute_totals_and_rank df).rows.length ≠ 0 := fun h0 =>
      hne (List.length_eq_zero.mp h0)
    constructor
    · unfold leadingTeam
      rw [if_pos ⟨hlen0, hpos⟩, hins, hNidx]
      rfl
    · obtain ⟨r0, rest, hcons⟩ : ∃ r0 rest,
          (compute_totals_and_rank df).rows = r0 :: rest := by
        cases hrows2 : (compute_totals_and_rank df).rows with
        | nil => exact absurd hrows2 hne
        | cons a t => exact ⟨a, t, rfl⟩
      have hmem0 : r0 ∈ (compute_totals_and_rank df).rows := by
        rw [hcons]
        exact List.mem_cons_self _ _
      have hmax : ∀ r' ∈ (compute_totals_and_rank df).rows,
          outTotal r' ≤ outTotal r0 := by
        intro r' hr'
        rw [hcons] at hr'
        rcases List.mem_cons.mp hr' with rfl | hr'
        · exact le_refl _
        · have hk := (List.pairwise_cons.mp (hcons ▸ hpair)).1 r' hr'
          unfold outKeyLE at hk
          rcases hk with hlt | ⟨heq, _⟩
          · exact le_of_lt hlt
          · exact le_of_eq heq.symm
      rw [hcons]
      simp only [List.headD_cons]
      rw [hrank r0 hmem0]
      have h1 : denseRankDesc ((compute_totals_and_rank df).rows.map outTotal)
          (outTotal r0) = 1 := by
        refine denseRankDesc_max ?_
        intro w hw
        rcases List.mem_map.mp hw with ⟨r', hr', rfl⟩
        exact hmax r' hr'
      rw [h1]
      rfl
  · intro hdisj
    have hncond : ¬ ((compute_totals_and_rank df).rows.length ≠ 0 ∧
        0 < maxTotal (compute_totals_and_rank df)) := by
      rintro ⟨hlen0, hpos⟩
      rcases hdisj with hnil | hle
      · exact hlen0 (by rw [hnil]; rfl)
      · omega
    unfold leadingTeam
    rw [if_neg hncond]
  · intro hempty
    constructor
    · rw [hlen, hempty]
      rfl
    · unfold teamCount
      rw [hlen, hempty]
      rfl

/-- Witness for C9: on the tie table the leader is the head row's name "A";
on the empty normalized table the output has zero rows and team count 0, and
the leader statistic is the sentinel. -/
theorem leading_team_spec_witness :
    Normalized exampleNormalized ∧
    leadingTeam (compute_totals_and_rank exampleNormalized)
        = outName ((compute_totals_and_rank exampleNormalized).rows.headD []) ∧
    leadingTeam (compute_totals_and_rank exampleNormalized) = "A" ∧
    ((compute_totals_and_rank exampleEmpty).rows.length = 0 ∧
      teamCount (compute_totals_and_rank exampleEmpty) = 0) ∧
    leadingTeam (compute_totals_and_rank exampleEmpty) = "TBD" :=
  ⟨by decide,
   ((leading_team_spec exampleNormalized (by decide)).1 (by decide) (by decide)).1,
   by decide,
   (leading_team_spec exampleEmpty (by decide)).2.2 rfl,
   by decide⟩

/-- C6: the schema normalizer (renaming followed by required-column filling
and coercion) is idempotent: applying it again to its own output (when the
renamed header is duplicate-free, so that column lookups are well defined)
returns the same table. -/
theorem normalizer_idempotent (df : DataFrame) (W : Wf df)
    (N : (normalize_columns df).header.Nodup) :
    ensure_required_columns (normalize_columns
        (ensure_required_columns (normalize_columns df)))
      = ensure_required_columns (normalize_columns df) := by
  have W0 : Wf (normalize_columns df) := by
    rw [normalize_columns_eq]
    intro r hr
    simp only [List.length_map]
    exact W r hr
  obtain ⟨E_hdr, E_wf, E_nodup, E_len, E_num, E_name, E_pass⟩ :=
    ensure_spec (normalize_columns df) W0 N
  have hreq_out : ∀ c ∈ REQUIRED_COLUMNS,
      c ∈ (ensure_required_columns (normalize_columns df)).header := by
    intro c hc
    rw [E_hdr]
    by_cases hmem : c ∈ (normalize_columns df).header
    · exact List.mem_append_left _ hmem
    · exact List.mem_append_right _ (List.mem_filter.mpr ⟨hc, by simp [hmem]⟩)
  have hfix : ∀ c ∈ (ensure_required_columns (normalize_columns df)).header,
      applyAlias c = c := by
    intro c hc
    rw [E_hdr] at hc
    rcases List.mem_append.mp hc with hc | hc
    · rw [normalize_columns_eq] at hc
      rcases List.mem_map.mp hc with ⟨c0, _, rfl⟩
      exact applyAlias_idem c0
    · exact applyAlias_canonical c (List.mem_of_mem_filter hc)
  have hnorm_fix : normalize_columns (ensure_required_columns (normalize_columns df))
      = ensure_required_columns (normalize_columns df) := by
    rw [normalize_columns_eq]
    have h1 : (ensure_required_columns (normalize_columns df)).header.map applyAlias
        = (ensure_required_columns (normalize_columns df)).header.map id :=
      List.map_congr_left fun c hc => hfix c hc
    rw [h1, List.map_id]
  rw [hnorm_fix]
  obtain ⟨F_hdr, F_wf, F_nodup, F_len, F_num, F_name, F_pass⟩ :=
    ensure_spec (ensure_required_columns (normalize_columns df)) E_wf E_nodup
  have hfilter : REQUIRED_COLUMNS.filter
      (fun c => !decide (c ∈ (ensure_required_columns (normalize_columns df)).header))
        = [] :=
    List.filter_eq_nil_iff.mpr fun c hc => by simp [hreq_out c hc]
  have hhdr2 : (ensure_required_columns (ensure_required_columns (normalize_columns df))).header
      = (ensure_required_columns (normalize_columns df)).header := by
    rw [F_hdr, hfilter, List.append_nil]
  have hsplit : ∀ x ∈ REQUIRED_COLUMNS, x = "Team_Name" ∨ x ∈ NUMERIC_COLUMNS := by
    decide
  have hsubNR : ∀ x ∈ NUMERIC_COLUMNS, x ∈ REQUIRED_COLUMNS := by decide
  refine table_ext F_wf E_wf hhdr2 F_nodup ?_ ?_
  · exact F_len
  · intro c hcmem
    rw [hhdr2] at hcmem
    by_cases hcr : c ∈ REQUIRED_COLUMNS
    · rcases hsplit c hcr with rfl | hnum
      · rw [F_name, if_pos (hreq_out _ (by decide)), E_name, List.map_map]
        exact List.map_congr_left fun x _ => astype_str_idem x
      · rw [F_num c hnum, if_pos (hreq_out c (hsubNR c hnum)), E_num c hnum,
          List.map_map]
        exact List.map_congr_left fun x _ => to_numeric_fill0_idem x
    · rw [F_pass c hcr]

/-- Witness for C6: the tiny raw table reaches a fixed point after one pass. -/
theorem normalizer_idempotent_witness :
    ensure_required_columns (normalize_columns
        (ensure_required_columns (normalize_columns exampleTiny)))
      = ensure_required_columns (normalize_columns exampleTiny) :=
  normalizer_idempotent exampleTiny (by decide) (by decide)

end FundRaiser
